import Mathlib

attribute [local semireducible] Rat.add Rat.mul Rat.inv Rat.sub Rat.ofScientific

/-!
Verification development for the plate-geometry repository.

The core pipeline (grid builder, mesh synthesizer, group classifier,
STAAD exporter) of the application is embedded shallowly: JavaScript
numbers become exact rationals `ℚ`, `Math.round`/`Math.floor`/`Math.ceil`
become `round`/`Int.floor`/`Int.ceil` (which agree with the JavaScript
semantics on the rational fragment: `Math.round x = ⌊x + 1/2⌋`),
imperative loops with counters become structural recursions that thread
the counter explicitly, and JavaScript `Map`/object lookups become
association-list lookups with the same overwrite semantics.
-/

namespace PlateGeo

/-- `clamp(v, a, b) = Math.min(Math.max(v, a), b)` from the utils module. -/
def clamp (v a b : ℚ) : ℚ := min (max v a) b

/-- `round3(n) = Math.round(n * 1000) / 1000` from the utils module. -/
def round3 (n : ℚ) : ℚ := ((round (n * 1000) : ℤ) : ℚ) / 1000

/-- The deduplication epsilon `1e-6` used by `uniqSorted`. -/
def epsQ : ℚ := 1 / 1000000

/-- The strict-interior tolerance `1e-9` used by `addDivisions` and the
pedestal-height guard. -/
def tol9 : ℚ := 1 / 1000000000

/-- The per-value rounding `Math.round(x / eps) * eps` performed inside
`uniqSorted`. -/
def roundEps (x : ℚ) : ℚ := ((round (x / epsQ) : ℤ) : ℚ) * epsQ

/-- `uniqSorted(arr)`: round every value to the nearest multiple of `1e-6`,
deduplicate (JavaScript `Set`), and sort ascending. -/
def uniqSorted (arr : List ℚ) : List ℚ :=
  List.insertionSort (· ≤ ·) ((arr.map roundEps).dedup)

/-- `findClosestIndex(arr, target)`: index of the first value with minimal
absolute difference to `target`; `-1` on an empty array (the JavaScript
initial `closest = Infinity` means the first element always wins against
the initial state). -/
def findClosestIndex (arr : List ℚ) (target : ℚ) : ℤ :=
  let st := arr.enum.foldl
    (fun (st : Option (ℚ × ℕ)) (ix : ℕ × ℚ) =>
      let diff := |ix.2 - target|
      match st with
      | none => some (diff, ix.1)
      | some ci => if diff < ci.1 then some (diff, ix.1) else some ci)
    none
  match st with
  | none => -1
  | some ci => (ci.2 : ℤ)

/-- The interior points the `addDivisions` loop inserts for one adjacent
cut pair `(a, b)`: `t = a + j*step` for `j = 1..⌊span/step⌋`, kept only
when `a + 1e-9 < t < b - 1e-9`.  (For `step ≤ 0` the JavaScript loop
inserts nothing on the documented input domain `step > 0`; we return
`[]` there so the function stays total.) -/
def interiorPoints (a b step : ℚ) : List ℚ :=
  if b - a ≤ 0 ∨ step ≤ 0 then []
  else
    ((List.range (Int.toNat ⌊(b - a) / step⌋)).map
        (fun j => a + ((j : ℚ) + 1) * step)).filter
      (fun t => decide (a + tol9 < t) && decide (t < b - tol9))

/-- `addDivisions(cuts, max, step)`: seed a set with the cuts, add the
interior points of every adjacent pair, and sort ascending. -/
def addDivisions (cuts : List ℚ) (step : ℚ) : List ℚ :=
  List.insertionSort (· ≤ ·)
    ((cuts ++ (cuts.zip cuts.tail).flatMap
        (fun ab => interiorPoints ab.1 ab.2 step)).dedup)

/-- A pedestal record `{id, x, z, length, width}`. -/
structure Pedestal where
  id : Nat
  x : ℚ
  z : ℚ
  length : ℚ
  width : ℚ
deriving DecidableEq, Repr

/-- The pipeline input snapshot: plan dimensions, mesh step, pedestal
height, plate thickness, face-orientation flag and the pedestal list. -/
structure Config where
  length : ℚ
  width : ℚ
  mesh : ℚ
  pedestalHeight : ℚ
  plateThickness : ℚ
  zOrientation : String
  points : List Pedestal
deriving DecidableEq, Repr

/-- A node record `{id, x, y, z, type}` where `type` is `"surface"` or
`"pedestal"`. -/
structure Node where
  id : Nat
  x : ℚ
  y : ℚ
  z : ℚ
  type : String
deriving DecidableEq, Repr

/-- A plate record `{id, nodes}` with a 4-tuple of node ids. -/
structure Plate where
  id : Nat
  nodes : List Nat
deriving DecidableEq, Repr

/-- A member record `{id, startNode, endNode, pointData}`. -/
structure Member where
  id : Nat
  startNode : Nat
  endNode : Nat
  pointData : Pedestal
deriving DecidableEq, Repr

/-- The grid builder, x axis: cuts at `0`, `length`, and every clamped
pedestal `x`, then mesh subdivisions. -/
def xLinesOf (c : Config) : List ℚ :=
  addDivisions
    (uniqSorted ([0, c.length] ++ c.points.map (fun p => clamp p.x 0 c.length)))
    c.mesh

/-- The grid builder, z axis. -/
def zLinesOf (c : Config) : List ℚ :=
  addDivisions
    (uniqSorted ([0, c.width] ++ c.points.map (fun p => clamp p.z 0 c.width)))
    c.mesh

/-- One row of surface nodes (inner `xi` loop), threading the node-id
counter exactly as `nodeIdCounter++` does. -/
def genSurfaceRow (cnt : Nat) (z : ℚ) : List ℚ → List Node × Nat
  | [] => ([], cnt)
  | x :: xs =>
    let rest := genSurfaceRow (cnt + 1) z xs
    (⟨cnt, x, 0, z, "surface"⟩ :: rest.1, rest.2)

/-- All surface nodes (outer `zi` loop over `zLines`, inner over
`xLines`), with the final counter value. -/
def genSurfaceRows (cnt : Nat) (xL : List ℚ) : List ℚ → List Node × Nat
  | [] => ([], cnt)
  | z :: zs =>
    let row := genSurfaceRow cnt z xL
    let rest := genSurfaceRows row.2 xL zs
    (row.1 ++ rest.1, rest.2)

/-- The key `"${round3 x},${round3 z}"` of the surface-node lookup object,
modelled as the pair of rounded coordinates. -/
def coordKey (x z : ℚ) : ℚ × ℚ := (round3 x, round3 z)

/-- `surfaceNodesByCoord[key]`: the JavaScript object is written during
surface generation with later assignments overwriting earlier ones, so
the lookup returns the id of the last surface node whose rounded
coordinates match. -/
def surfaceLookup (ns : List Node) (x z : ℚ) : Option Nat :=
  (ns.reverse.find? (fun n => decide (coordKey n.x n.z = coordKey x z))).map
    (fun n => n.id)

/-- The pedestal pass: for each pedestal whose rounded center matches a
surface node, allocate a pedestal node (continuing `nodeIdCounter`) and a
member (`id = newMembers.length + 1`, i.e. a second counter `mc`). -/
def genPedestals (ns : List Node) (h : ℚ) :
    Nat → Nat → List Pedestal → List Node × List Member
  | _, _, [] => ([], [])
  | nc, mc, p :: ps =>
    match surfaceLookup ns p.x p.z with
    | some sid =>
      let rest := genPedestals ns h (nc + 1) (mc + 1) ps
      (⟨nc, p.x, h, p.z, "pedestal"⟩ :: rest.1,
       ⟨mc, sid, nc, p⟩ :: rest.2)
    | none => genPedestals ns h nc mc ps

/-- `nodeIdAt(xi, zi) = zi * nX + xi + 1` from the plate loop. -/
def nodeIdAt (nX xi zi : Nat) : Nat := zi * nX + xi + 1

/-- One row of plates (inner `xi` loop): corner ids, orientation-dependent
node order, plate-id counter, and the `plateIdByCoord` entries. -/
def genPlateCells (nX : Nat) (orient : String) (zi : Nat) (cnt : Nat) :
    List Nat → List Plate × List ((Nat × Nat) × Nat) × Nat
  | [] => ([], [], cnt)
  | xi :: xs =>
    let tl := nodeIdAt nX xi zi
    let tr := nodeIdAt nX (xi + 1) zi
    let br := nodeIdAt nX (xi + 1) (zi + 1)
    let bl := nodeIdAt nX xi (zi + 1)
    let ord := if orient = "up" then [bl, br, tr, tl] else [tl, tr, br, bl]
    let rest := genPlateCells nX orient zi (cnt + 1) xs
    (⟨cnt, ord⟩ :: rest.1, ((xi, zi), cnt) :: rest.2.1, rest.2.2)

/-- The full plate grid (outer `zi` loop). -/
def genPlateGrid (nX : Nat) (orient : String) (cnt : Nat) :
    List Nat → List Plate × List ((Nat × Nat) × Nat) × Nat
  | [] => ([], [], cnt)
  | zi :: zs =>
    let row := genPlateCells nX orient zi cnt (List.range (nX - 1))
    let rest := genPlateGrid nX orient row.2.2 zs
    (row.1 ++ rest.1, row.2.1 ++ rest.2.1, rest.2.2)

/-- The surface-node pass of the mesh synthesizer. -/
def surfResult (c : Config) : List Node × Nat :=
  genSurfaceRows 1 (xLinesOf c) (zLinesOf c)

/-- The surface nodes of an input. -/
def surfaceNodes (c : Config) : List Node := (surfResult c).1

/-- The pedestal pass, guarded by `pedestalHeight > 1e-9`. -/
def pedResult (c : Config) : List Node × List Member :=
  if tol9 < c.pedestalHeight then
    genPedestals (surfaceNodes c) c.pedestalHeight (surfResult c).2 1 c.points
  else ([], [])

/-- All generated nodes: surface nodes then pedestal nodes. -/
def nodesOf (c : Config) : List Node := surfaceNodes c ++ (pedResult c).1

/-- All generated members. -/
def membersOf (c : Config) : List Member := (pedResult c).2

/-- The plate pass. -/
def platesResult (c : Config) : List Plate × List ((Nat × Nat) × Nat) × Nat :=
  genPlateGrid (xLinesOf c).length c.zOrientation 1
    (List.range ((zLinesOf c).length - 1))

/-- All generated plates. -/
def platesOf (c : Config) : List Plate := (platesResult c).1

/-- The `plateIdByCoord` map as an association list. -/
def plateAssoc (c : Config) : List ((Nat × Nat) × Nat) := (platesResult c).2.1

/-- `plateIdByCoord.get` (keys in the map are unique). -/
def assocLookup : List ((Nat × Nat) × Nat) → Nat × Nat → Option Nat
  | [], _ => none
  | e :: es, k => if e.1 = k then some e.2 else assocLookup es k

/-- The classifier loop `for (xi = max(0, s); xi < min(n, e); xi++)`,
i.e. the indices `0 ≤ i < n` with `s ≤ i < e`. -/
def clipRange (s e : ℤ) (n : Nat) : List Nat :=
  (List.range n).filter (fun i => decide (s ≤ (i : ℤ)) && decide ((i : ℤ) < e))

/-- The moment index interval on the x axis for one pedestal:
`[⌊idx - n/2⌋, ⌈idx + n/2⌉)` with `idx` the closest grid index and
`n = Math.round(p.length / mesh)`. -/
def pedBoundsX (c : Config) (p : Pedestal) : ℤ × ℤ :=
  let px := findClosestIndex (xLinesOf c) p.x
  let n : ℤ := round (p.length / c.mesh)
  (⌊(px : ℚ) - (n : ℚ) / 2⌋, ⌈(px : ℚ) + (n : ℚ) / 2⌉)

/-- The moment index interval on the z axis
(`n = Math.round(p.width / mesh)`). -/
def pedBoundsZ (c : Config) (p : Pedestal) : ℤ × ℤ :=
  let pz := findClosestIndex (zLinesOf c) p.z
  let n : ℤ := round (p.width / c.mesh)
  (⌊(pz : ℚ) - (n : ℚ) / 2⌋, ⌈(pz : ℚ) + (n : ℚ) / 2⌉)

/-- Expansion of an index interval outward on both ends by `d` cells. -/
def expandB (b : ℤ × ℤ) (d : ℤ) : ℤ × ℤ := (b.1 - d, b.2 + d)

/-- The plate ids collected by the clipped double loop over an x interval
and a z interval (successful `plateIdByCoord` lookups only). -/
def pedCells (c : Config) (bx bz : ℤ × ℤ) : List Nat :=
  (clipRange bx.1 bx.2 ((xLinesOf c).length - 1)).flatMap
    (fun xi =>
      (clipRange bz.1 bz.2 ((zLinesOf c).length - 1)).filterMap
        (fun zi => assocLookup (plateAssoc c) (xi, zi)))

/-- The one-way-shear expansion `Math.round(plateThickness / mesh)`. -/
def dOneWay (c : Config) : ℤ := round (c.plateThickness / c.mesh)

/-- The two-way-shear expansion `Math.round(plateThickness / (2*mesh))`. -/
def dTwoWay (c : Config) : ℤ := round (c.plateThickness / (2 * c.mesh))

/-- One pedestal's moment plate set. -/
def pedMoment (c : Config) (p : Pedestal) : Finset ℕ :=
  (pedCells c (pedBoundsX c p) (pedBoundsZ c p)).toFinset

/-- One pedestal's one-way-shear plate set. -/
def pedOneWay (c : Config) (p : Pedestal) : Finset ℕ :=
  (pedCells c (expandB (pedBoundsX c p) (dOneWay c))
    (expandB (pedBoundsZ c p) (dOneWay c))).toFinset

/-- One pedestal's two-way-shear plate set. -/
def pedTwoWay (c : Config) (p : Pedestal) : Finset ℕ :=
  (pedCells c (expandB (pedBoundsX c p) (dTwoWay c))
    (expandB (pedBoundsZ c p) (dTwoWay c))).toFinset

/-- The moment group: union over all pedestals. -/
def momentSet (c : Config) : Finset ℕ :=
  c.points.foldl (fun s p => s ∪ pedMoment c p) ∅

/-- The one-way-shear group. -/
def oneWaySet (c : Config) : Finset ℕ :=
  c.points.foldl (fun s p => s ∪ pedOneWay c p) ∅

/-- The two-way-shear group. -/
def twoWaySet (c : Config) : Finset ℕ :=
  c.points.foldl (fun s p => s ∪ pedTwoWay c p) ∅

/-- `groupedPlates`: `Array.from(momentPlates).sort((a,b) => a-b)`, the
moment set as an ascending array (deduplicated because the JavaScript
collection is a `Set`). -/
def groupedPlates (c : Config) : List ℕ :=
  List.insertionSort (· ≤ ·)
    ((c.points.flatMap
      (fun p => pedCells c (pedBoundsX c p) (pedBoundsZ c p))).dedup)

/-- `shearPlates`: the one-way-shear set as an ascending array. -/
def shearPlates (c : Config) : List ℕ :=
  List.insertionSort (· ≤ ·)
    ((c.points.flatMap
      (fun p => pedCells c (expandB (pedBoundsX c p) (dOneWay c))
        (expandB (pedBoundsZ c p) (dOneWay c)))).dedup)

/-- `twoWayShearPlates`: the two-way-shear set as an ascending array. -/
def twoWayShearList (c : Config) : List ℕ :=
  List.insertionSort (· ≤ ·)
    ((c.points.flatMap
      (fun p => pedCells c (expandB (pedBoundsX c p) (dTwoWay c))
        (expandB (pedBoundsZ c p) (dTwoWay c)))).dedup)

/-- The fractional digits of `f/1000` (for `0 < f < 1000`) with trailing
zeros removed, as JavaScript number-to-string prints them. -/
def frac3 (f : Nat) : String :=
  let d1 := f / 100
  let d2 := f / 10 % 10
  let d3 := f % 10
  if d3 ≠ 0 then toString d1 ++ toString d2 ++ toString d3
  else if d2 ≠ 0 then toString d1 ++ toString d2
  else toString d1

/-- Decimal rendering of a nonnegative rational that is an exact multiple
of `1/1000` (every number the exporter prints passes through `round3`
first, so has this shape). -/
def ratStrNN (q : ℚ) : String :=
  let k : Nat := (q * 1000).num.toNat
  let i := k / 1000
  let f := k % 1000
  if f = 0 then toString i else toString i ++ "." ++ frac3 f

/-- JavaScript template rendering `${q}` of a `round3` output. -/
def ratStr (q : ℚ) : String :=
  if q < 0 then "-" ++ ratStrNN (-q) else ratStrNN q

/-- The joint-coordinates token
`"${n.id} ${round3(n.x)} ${round3(n.y)} ${round3(n.z)}"`. -/
def jointToken (n : Node) : String :=
  toString n.id ++ " " ++ ratStr (round3 n.x) ++ " " ++ ratStr (round3 n.y)
    ++ " " ++ ratStr (round3 n.z)

/-- The element-incidences token `"${p.id} ${p.nodes.join(" ")}"`. -/
def plateToken (p : Plate) : String :=
  toString p.id ++ " " ++ String.intercalate " " (p.nodes.map toString)

/-- The `"; "`-packing loop shared by the joint and element blocks:
append the next token if the line stays within `limit` characters,
otherwise flush the current line terminated by `';'`. -/
def packJoin (limit : Nat) : String → List String → List String
  | cur, [] => [cur ++ ";"]
  | cur, t :: ts =>
    if (cur ++ "; " ++ t).length ≤ limit then packJoin limit (cur ++ "; " ++ t) ts
    else (cur ++ ";") :: packJoin limit t ts

/-- Packing of a token list (`currentLine` starts empty; nothing is
emitted for an empty token list). -/
def packTokens (limit : Nat) : List String → List String
  | [] => []
  | t :: ts => packJoin limit t ts

/-- The group-block packing loop: append `" " + id` unless the result
exceeds 60 characters, in which case the current line is flushed with a
trailing `" -"` continuation and the next line starts with the bare id.
Returns the flushed lines and the final current line. -/
def groupLoop : String → List Nat → List String × String
  | cur, [] => ([], cur)
  | cur, i :: is =>
    let idStr := toString i
    let pot := cur ++ " " ++ idStr
    if pot.length > 60 then
      let rest := groupLoop idStr is
      ((cur ++ " -") :: rest.1, rest.2)
    else groupLoop pot is

/-- ASCII `toUpperCase` on one character (the group names passed in the
code are ASCII). -/
def upChar (ch : Char) : Char :=
  if ch.isLower then Char.ofNat (ch.toNat - 32) else ch

/-- `groupName.toUpperCase()` (ASCII). -/
def strUpper (s : String) : String := ⟨s.data.map upChar⟩

/-- `formatGroupLines(groupName, ids)`: the final current line is kept
only when it differs from the bare group header. -/
def formatGroupLines (groupName : String) (ids : List Nat) : List String :=
  let start := "_" ++ strUpper groupName
  let r := groupLoop start ids
  if r.2 ≠ start then r.1 ++ [r.2] else r.1

/-- `lastPlateId`: id of the last plate, `0` when there are none. -/
def lastPlateId (c : Config) : Nat :=
  ((platesOf c).getLast?.map (fun p => p.id)).getD 0

/-- The `MEMBER INCIDENCES` lines, with `memberIdCounter` starting at
`lastPlateId + 1`. -/
def memberLines (mid : Nat) : List Member → List String
  | [] => []
  | m :: ms =>
    (toString mid ++ " " ++ toString m.startNode ++ " " ++ toString m.endNode
      ++ ";") :: memberLines (mid + 1) ms

/-- The `memberIdMap` (pedestal id ↦ STAAD member id), in insertion
order. -/
def memberIdAssoc (mid : Nat) : List Member → List (Nat × Nat)
  | [] => []
  | m :: ms => (m.pointData.id, mid) :: memberIdAssoc (mid + 1) ms

/-- JavaScript `Map.get` where later `set`s overwrite earlier ones. -/
def lookupLast (l : List (Nat × Nat)) (k : Nat) : Option Nat :=
  l.reverse.lookup k

/-- The `MEMBER PROPERTY` lines. -/
def memberPropLines (assoc : List (Nat × Nat)) : List Member → List String
  | [] => []
  | m :: ms =>
    match lookupLast assoc m.pointData.id with
    | some mid =>
      (toString mid ++ " PRISM YD " ++ ratStr (round3 m.pointData.length)
        ++ " ZD " ++ ratStr (round3 m.pointData.width) ++ ";")
        :: memberPropLines assoc ms
    | none => memberPropLines assoc ms

/-- The material-constant block emitted verbatim inside the member
section. -/
def materialBlock : List String :=
  ["DEFINE MATERIAL START", "ISOTROPIC CONCRETE", "E 2.17185e+07",
   "POISSON 0.17", "DENSITY 23.5616", "ALPHA 1e-05", "DAMP 0.05",
   "G 9.28139e+06", "TYPE CONCRETE", "STRENGTH FCU 27579",
   "END DEFINE MATERIAL"]

/-- The full export text as its list of lines (the final text is
`"\n".join` of these).  The date string is the injected
`format(new Date(), "dd-MMM-yy")`. -/
def exportLines (dateStr : String) (c : Config) : List String :=
  ["STAAD SPACE", "START JOB INFORMATION", "ENGINEER DATE " ++ dateStr,
   "END JOB INFORMATION", "INPUT WIDTH 79", "UNIT METER KN",
   "JOINT COORDINATES"]
  ++ packTokens 74 ((nodesOf c).map jointToken)
  ++ ["ELEMENT INCIDENCES SHELL"]
  ++ packTokens 74 ((platesOf c).map plateToken)
  ++ (if (groupedPlates c).length > 0 ∨ (shearPlates c).length > 0 ∨
        (twoWayShearList c).length > 0 then
        ["START GROUP DEFINITION", "ELEMENT"]
        ++ (if (groupedPlates c).length > 0 then
              formatGroupLines "MOMENT" (groupedPlates c) else [])
        ++ (if (shearPlates c).length > 0 then
              formatGroupLines "1_WAY_SHEAR" (shearPlates c) else [])
        ++ (if (twoWayShearList c).length > 0 then
              formatGroupLines "2_WAY_SHEAR" (twoWayShearList c) else [])
        ++ ["END GROUP DEFINITION"]
      else [])
  ++ (if (platesOf c).length > 0 then
        ["ELEMENT PROPERTY",
         "1 TO " ++ toString (platesOf c).length ++ " THICKNESS "
           ++ ratStr (round3 c.plateThickness) ++ ";"]
      else [])
  ++ (if (membersOf c).length > 0 then
        ["MEMBER INCIDENCES"]
        ++ memberLines (lastPlateId c + 1) (membersOf c)
        ++ materialBlock
        ++ ["CONSTANTS", "MATERIAL CONCRETE ALL", "MEMBER PROPERTY"]
        ++ memberPropLines (memberIdAssoc (lastPlateId c + 1) (membersOf c))
             (membersOf c)
      else [])
  ++ ["FINISH"]

/-! ### Packing invariants -/

theorem packJoin_length_le (limit : Nat) (cur : String) (ts : List String)
    (hcur : cur.length ≤ limit) (hts : ∀ t ∈ ts, t.length ≤ limit) :
    ∀ l ∈ packJoin limit cur ts, l.length ≤ limit + 1 := by
  induction ts generalizing cur with
  | nil =>
    intro l hl
    simp only [packJoin, List.mem_singleton] at hl
    subst hl
    rw [String.length_append]
    have h1 : (";" : String).length = 1 := rfl
    omega
  | cons t ts ih =>
    intro l hl
    simp only [packJoin] at hl
    split at hl
    · exact ih _ (by assumption) (fun u hu => hts u (List.mem_cons_of_mem _ hu)) l hl
    · rcases List.mem_cons.mp hl with h | h
      · subst h
        rw [String.length_append]
        have h1 : (";" : String).length = 1 := rfl
        omega
      · exact ih t (hts t (List.mem_cons_self _ _))
          (fun u hu => hts u (List.mem_cons_of_mem _ hu)) l h

theorem packTokens_length_le (limit : Nat) (ts : List String)
    (hts : ∀ t ∈ ts, t.length ≤ limit) :
    ∀ l ∈ packTokens limit ts, l.length ≤ limit + 1 := by
  cases ts with
  | nil => intro l hl; simp [packTokens] at hl
  | cons t ts =>
    exact packJoin_length_le limit t ts (hts t (List.mem_cons_self _ _))
      (fun u hu => hts u (List.mem_cons_of_mem _ hu))

theorem packJoin_ends_semi (limit : Nat) (cur : String) (ts : List String) :
    ∀ l ∈ packJoin limit cur ts, l.data.getLast? = some ';' := by
  induction ts generalizing cur with
  | nil =>
    intro l hl
    simp only [packJoin, List.mem_singleton] at hl
    subst hl
    rw [String.data_append]
    exact List.getLast?_concat _
  | cons t ts ih =>
    intro l hl
    simp only [packJoin] at hl
    split at hl
    · exact ih _ l hl
    · rcases List.mem_cons.mp hl with h | h
      · subst h
        rw [String.data_append]
        exact List.getLast?_concat _
      · exact ih t l h

theorem packTokens_ends_semi (limit : Nat) (ts : List String) :
    ∀ l ∈ packTokens limit ts, l.data.getLast? = some ';' := by
  cases ts with
  | nil => intro l hl; simp [packTokens] at hl
  | cons t ts => exact packJoin_ends_semi limit t ts

theorem groupLoop_length_le (cur : String) (ids : List Nat)
    (hcur : cur.length ≤ 60) (hids : ∀ i ∈ ids, (toString i).length ≤ 60) :
    (∀ l ∈ (groupLoop cur ids).1, l.length ≤ 62) ∧
      (groupLoop cur ids).2.length ≤ 60 := by
  induction ids generalizing cur with
  | nil => exact ⟨fun l hl => by simp [groupLoop] at hl, by simpa [groupLoop] using hcur⟩
  | cons i is ih =>
    simp only [groupLoop]
    split
    · have hrest := ih (toString i) (hids i (List.mem_cons_self _ _))
        (fun u hu => hids u (List.mem_cons_of_mem _ hu))
      refine ⟨fun l hl => ?_, hrest.2⟩
      rcases List.mem_cons.mp hl with h | h
      · subst h
        rw [String.length_append]
        calc cur.length + (" -" : String).length ≤ 60 + 2 := by
              exact Nat.add_le_add hcur (by decide)
          _ = 62 := rfl
      · exact hrest.1 l h
    · rename_i hle
      push_neg at hle
      exact ih _ hle (fun u hu => hids u (List.mem_cons_of_mem _ hu))

theorem formatGroupLines_length_le (name : String) (ids : List Nat)
    (hname : ("_" ++ strUpper name).length ≤ 60)
    (hids : ∀ i ∈ ids, (toString i).length ≤ 60) :
    ∀ l ∈ formatGroupLines name ids, l.length ≤ 62 := by
  intro l hl
  have h := groupLoop_length_le ("_" ++ strUpper name) ids hname hids
  simp only [formatGroupLines] at hl
  split at hl
  · rcases List.mem_append.mp hl with hmem | hmem
    · exact h.1 l hmem
    · have : l = (groupLoop ("_" ++ strUpper name) ids).2 := by
        simpa using hmem
      subst this
      exact le_trans h.2 (by omega)
  · exact h.1 l hl

/-! ### Grid-builder lemmas -/

theorem mem_uniqSorted {y : ℚ} {l : List ℚ} :
    y ∈ uniqSorted l ↔ y ∈ l.map roundEps := by
  rw [uniqSorted, List.mem_insertionSort, List.mem_dedup]

theorem mem_addDivisions_of_mem_cuts {x : ℚ} {cuts : List ℚ} (step : ℚ)
    (hx : x ∈ cuts) : x ∈ addDivisions cuts step := by
  rw [addDivisions, List.mem_insertionSort, List.mem_dedup, List.mem_append]
  exact Or.inl hx

theorem roundEps_zero : roundEps 0 = 0 := by
  simp [roundEps]

theorem roundEps_intMul (x : ℚ) : ∃ k : ℤ, roundEps x = (k : ℚ) * epsQ :=
  ⟨round (x / epsQ), rfl⟩

theorem nodup_addDivisions (cuts : List ℚ) (step : ℚ) :
    (addDivisions cuts step).Nodup :=
  (List.perm_insertionSort _ _).nodup_iff.mpr (List.nodup_dedup _)

theorem sorted_le_addDivisions (cuts : List ℚ) (step : ℚ) :
    (addDivisions cuts step).Sorted (· ≤ ·) :=
  List.sorted_insertionSort _ _

theorem sorted_lt_addDivisions (cuts : List ℚ) (step : ℚ) :
    (addDivisions cuts step).Sorted (· < ·) := by
  have h1 := sorted_le_addDivisions cuts step
  have h2 := nodup_addDivisions cuts step
  exact (h1.and h2).imp (fun h => lt_of_le_of_ne h.1 h.2)

theorem uniqSorted_separation {a b : ℚ} {l : List ℚ}
    (ha : a ∈ uniqSorted l) (hb : b ∈ uniqSorted l) (hab : a ≠ b) :
    epsQ ≤ |a - b| := by
  rw [mem_uniqSorted, List.mem_map] at ha hb
  obtain ⟨x, -, hx⟩ := ha
  obtain ⟨y, -, hy⟩ := hb
  obtain ⟨i, hi⟩ : ∃ k : ℤ, a = (k : ℚ) * epsQ := hx ▸ roundEps_intMul x
  obtain ⟨j, hj⟩ : ∃ k : ℤ, b = (k : ℚ) * epsQ := hy ▸ roundEps_intMul y
  subst hi hj
  have hij : i ≠ j := fun h => hab (by rw [h])
  have h1 : (1 : ℚ) ≤ |(i : ℚ) - (j : ℚ)| := by
    have := Int.one_le_abs (sub_ne_zero.mpr hij)
    calc (1 : ℚ) = ((1 : ℤ) : ℚ) := by norm_num
      _ ≤ ((|i - j| : ℤ) : ℚ) := by exact_mod_cast this
      _ = |(i : ℚ) - (j : ℚ)| := by push_cast; ring_nf
  have heps : (0 : ℚ) < epsQ := by norm_num [epsQ]
  calc epsQ = 1 * epsQ := (one_mul _).symm
    _ ≤ |(i : ℚ) - (j : ℚ)| * epsQ := by
        exact mul_le_mul_of_nonneg_right h1 (le_of_lt heps)
    _ = |(i : ℚ) - (j : ℚ)| * |epsQ| := by rw [abs_of_pos heps]
    _ = |((i : ℚ) - (j : ℚ)) * epsQ| := (abs_mul _ _).symm
    _ = |(i : ℚ) * epsQ - (j : ℚ) * epsQ| := by ring_nf

theorem zero_mem_xLines (c : Config) : 0 ∈ xLinesOf c := by
  apply mem_addDivisions_of_mem_cuts
  rw [mem_uniqSorted]
  refine List.mem_map.mpr ⟨0, ?_, roundEps_zero⟩
  simp

theorem extent_mem_xLines (c : Config) : roundEps c.length ∈ xLinesOf c := by
  apply mem_addDivisions_of_mem_cuts
  rw [mem_uniqSorted]
  exact List.mem_map.mpr ⟨c.length, by simp, rfl⟩

theorem clampx_mem_xLines (c : Config) {p : Pedestal} (hp : p ∈ c.points) :
    roundEps (clamp p.x 0 c.length) ∈ xLinesOf c := by
  apply mem_addDivisions_of_mem_cuts
  rw [mem_uniqSorted]
  refine List.mem_map.mpr ⟨clamp p.x 0 c.length, ?_, rfl⟩
  simp only [List.mem_append, List.mem_cons]
  exact Or.inr (List.mem_map.mpr ⟨p, hp, rfl⟩)

theorem zero_mem_zLines (c : Config) : 0 ∈ zLinesOf c := by
  apply mem_addDivisions_of_mem_cuts
  rw [mem_uniqSorted]
  refine List.mem_map.mpr ⟨0, ?_, roundEps_zero⟩
  simp

theorem extent_mem_zLines (c : Config) : roundEps c.width ∈ zLinesOf c := by
  apply mem_addDivisions_of_mem_cuts
  rw [mem_uniqSorted]
  exact List.mem_map.mpr ⟨c.width, by simp, rfl⟩

theorem clampz_mem_zLines (c : Config) {p : Pedestal} (hp : p ∈ c.points) :
    roundEps (clamp p.z 0 c.width) ∈ zLinesOf c := by
  apply mem_addDivisions_of_mem_cuts
  rw [mem_uniqSorted]
  refine List.mem_map.mpr ⟨clamp p.z 0 c.width, ?_, rfl⟩
  simp only [List.mem_append, List.mem_cons]
  exact Or.inr (List.mem_map.mpr ⟨p, hp, rfl⟩)

/-! ### Surface-node characterization -/

theorem genSurfaceRow_snd (cnt : Nat) (z : ℚ) (xs : List ℚ) :
    (genSurfaceRow cnt z xs).2 = cnt + xs.length := by
  induction xs generalizing cnt with
  | nil => simp [genSurfaceRow]
  | cons x xs ih => simp [genSurfaceRow, ih]; omega

theorem genSurfaceRow_map_id (cnt : Nat) (z : ℚ) (xs : List ℚ) :
    (genSurfaceRow cnt z xs).1.map (fun n => n.id) = List.range' cnt xs.length := by
  induction xs generalizing cnt with
  | nil => simp [genSurfaceRow]
  | cons x xs ih => simp [genSurfaceRow, ih, List.range'_succ]

theorem genSurfaceRow_type (cnt : Nat) (z : ℚ) (xs : List ℚ) :
    ∀ n ∈ (genSurfaceRow cnt z xs).1, n.type = "surface" := by
  induction xs generalizing cnt with
  | nil => simp [genSurfaceRow]
  | cons x xs ih =>
    intro n hn
    simp only [genSurfaceRow, List.mem_cons] at hn
    rcases hn with h | h
    · subst h; rfl
    · exact ih (cnt + 1) n h

theorem genSurfaceRows_snd (cnt : Nat) (xL zs : List ℚ) :
    (genSurfaceRows cnt xL zs).2 = cnt + xL.length * zs.length := by
  induction zs generalizing cnt with
  | nil => simp [genSurfaceRows]
  | cons z zs ih =>
    simp only [genSurfaceRows, ih, genSurfaceRow_snd, List.length_cons]
    ring

theorem genSurfaceRows_map_id (cnt : Nat) (xL zs : List ℚ) :
    (genSurfaceRows cnt xL zs).1.map (fun n => n.id) =
      List.range' cnt (xL.length * zs.length) := by
  induction zs generalizing cnt with
  | nil => simp [genSurfaceRows]
  | cons z zs ih =>
    simp only [genSurfaceRows, List.map_append, genSurfaceRow_map_id,
      genSurfaceRow_snd, ih, List.length_cons]
    have := List.range'_append cnt xL.length (xL.length * zs.length) 1
    simp only [one_mul] at this
    rw [this]
    ring_nf

theorem genSurfaceRows_type (cnt : Nat) (xL zs : List ℚ) :
    ∀ n ∈ (genSurfaceRows cnt xL zs).1, n.type = "surface" := by
  induction zs generalizing cnt with
  | nil => simp [genSurfaceRows]
  | cons z zs ih =>
    intro n hn
    simp only [genSurfaceRows, List.mem_append] at hn
    rcases hn with h | h
    · exact genSurfaceRow_type cnt z xL n h
    · exact ih _ n h

theorem surfaceNodes_map_id (c : Config) :
    (surfaceNodes c).map (fun n => n.id) =
      List.range' 1 ((xLinesOf c).length * (zLinesOf c).length) :=
  genSurfaceRows_map_id 1 _ _

theorem surfaceNodes_length (c : Config) :
    (surfaceNodes c).length = (xLinesOf c).length * (zLinesOf c).length := by
  have := congrArg List.length (surfaceNodes_map_id c)
  simpa using this

theorem surfaceNodes_type (c : Config) :
    ∀ n ∈ surfaceNodes c, n.type = "surface" :=
  genSurfaceRows_type 1 _ _

theorem surfResult_snd (c : Config) :
    (surfResult c).2 = 1 + (xLinesOf c).length * (zLinesOf c).length :=
  genSurfaceRows_snd 1 _ _

/-! ### Surface-lookup lemmas -/

theorem surfaceLookup_some {ns : List Node} {x z : ℚ} {sid : Nat}
    (h : surfaceLookup ns x z = some sid) :
    ∃ n ∈ ns, n.id = sid ∧ coordKey n.x n.z = coordKey x z := by
  simp only [surfaceLookup, Option.map_eq_some'] at h
  obtain ⟨n, hn, hid⟩ := h
  refine ⟨n, ?_, hid, ?_⟩
  · exact List.mem_reverse.mp (List.mem_of_find?_eq_some hn)
  · have := List.find?_some hn
    simpa using this

theorem surfaceLookup_eq_none {ns : List Node} {x z : ℚ}
    (h : ∀ n ∈ ns, coordKey n.x n.z ≠ coordKey x z) :
    surfaceLookup ns x z = none := by
  simp only [surfaceLookup, Option.map_eq_none']
  rw [List.find?_eq_none]
  intro n hn
  simpa using h n (List.mem_reverse.mp hn)

/-! ### Pedestal-pass characterization -/

theorem genPedestals_map_id (ns : List Node) (h : ℚ) (nc mc : Nat)
    (ps : List Pedestal) :
    (genPedestals ns h nc mc ps).1.map (fun n => n.id) =
      List.range' nc (ps.countP (fun p => (surfaceLookup ns p.x p.z).isSome)) := by
  induction ps generalizing nc mc with
  | nil => simp [genPedestals]
  | cons p ps ih =>
    rw [List.countP_cons]
    cases hl : surfaceLookup ns p.x p.z with
    | none => simp [genPedestals, hl, ih nc mc]
    | some sid => simp [genPedestals, hl, ih (nc + 1) (mc + 1), List.range'_succ]

theorem genPedestals_length (ns : List Node) (h : ℚ) (nc mc : Nat)
    (ps : List Pedestal) :
    (genPedestals ns h nc mc ps).1.length =
      ps.countP (fun p => (surfaceLookup ns p.x p.z).isSome) := by
  have := congrArg List.length (genPedestals_map_id ns h nc mc ps)
  simpa using this

theorem genPedestals_node_src (ns : List Node) (h : ℚ) (nc mc : Nat)
    (ps : List Pedestal) :
    ∀ n ∈ (genPedestals ns h nc mc ps).1, n.type = "pedestal" ∧
      ∃ q ∈ ps, n.x = q.x ∧ n.z = q.z ∧
        (surfaceLookup ns q.x q.z).isSome := by
  induction ps generalizing nc mc with
  | nil => simp [genPedestals]
  | cons p ps ih =>
    intro n hn
    cases hl : surfaceLookup ns p.x p.z with
    | none =>
      rw [genPedestals, hl] at hn
      obtain ⟨ht, q, hq, hrest⟩ := ih nc mc n hn
      exact ⟨ht, q, List.mem_cons_of_mem _ hq, hrest⟩
    | some sid =>
      rw [genPedestals, hl] at hn
      rcases List.mem_cons.mp hn with heq | hmem
      · subst heq
        exact ⟨rfl, p, List.mem_cons_self _ _, rfl, rfl, by rw [hl]; rfl⟩
      · obtain ⟨ht, q, hq, hrest⟩ := ih (nc + 1) (mc + 1) n hmem
        exact ⟨ht, q, List.mem_cons_of_mem _ hq, hrest⟩

theorem genPedestals_member_src (ns : List Node) (h : ℚ) (nc mc : Nat)
    (ps : List Pedestal) :
    ∀ m ∈ (genPedestals ns h nc mc ps).2, m.pointData ∈ ps ∧
      surfaceLookup ns m.pointData.x m.pointData.z = some m.startNode ∧
      ∃ n ∈ (genPedestals ns h nc mc ps).1, n.id = m.endNode := by
  induction ps generalizing nc mc with
  | nil => simp [genPedestals]
  | cons p ps ih =>
    intro m hm
    cases hl : surfaceLookup ns p.x p.z with
    | none =>
      rw [genPedestals, hl] at hm ⊢
      obtain ⟨hp, hsl, n, hn, hid⟩ := ih nc mc m hm
      exact ⟨List.mem_cons_of_mem _ hp, hsl, n, hn, hid⟩
    | some sid =>
      rw [genPedestals, hl] at hm ⊢
      rcases List.mem_cons.mp hm with heq | hmem
      · subst heq
        exact ⟨List.mem_cons_self _ _, hl, ⟨nc, p.x, h, p.z, "pedestal"⟩,
          List.mem_cons_self _ _, rfl⟩
      · obtain ⟨hp, hsl, n, hn, hid⟩ := ih (nc + 1) (mc + 1) m hmem
        exact ⟨List.mem_cons_of_mem _ hp, hsl, n, List.mem_cons_of_mem _ hn, hid⟩

/-! ### Plate-grid characterization -/

theorem genPlateCells_snd (nX : Nat) (o : String) (zi cnt : Nat) (xs : List Nat) :
    (genPlateCells nX o zi cnt xs).2.2 = cnt + xs.length := by
  induction xs generalizing cnt with
  | nil => simp [genPlateCells]
  | cons x xs ih => simp [genPlateCells, ih]; omega

theorem genPlateCells_map_id (nX : Nat) (o : String) (zi cnt : Nat) (xs : List Nat) :
    (genPlateCells nX o zi cnt xs).1.map (fun p => p.id) =
      List.range' cnt xs.length := by
  induction xs generalizing cnt with
  | nil => simp [genPlateCells]
  | cons x xs ih => simp [genPlateCells, ih, List.range'_succ]

theorem genPlateGrid_map_id (nX : Nat) (o : String) (cnt : Nat) (zs : List Nat) :
    (genPlateGrid nX o cnt zs).1.map (fun p => p.id) =
      List.range' cnt ((nX - 1) * zs.length) := by
  induction zs generalizing cnt with
  | nil => simp [genPlateGrid]
  | cons z zs ih =>
    simp only [genPlateGrid, List.map_append, genPlateCells_map_id,
      genPlateCells_snd, ih, List.length_range, List.length_cons]
    have := List.range'_append cnt (nX - 1) ((nX - 1) * zs.length) 1
    simp only [one_mul] at this
    rw [this]
    ring_nf

theorem platesOf_map_id (c : Config) :
    (platesOf c).map (fun p => p.id) =
      List.range' 1 (((xLinesOf c).length - 1) * ((zLinesOf c).length - 1)) := by
  have := genPlateGrid_map_id (xLinesOf c).length c.zOrientation 1
    (List.range ((zLinesOf c).length - 1))
  simpa [platesOf, platesResult] using this

theorem platesOf_length (c : Config) :
    (platesOf c).length = ((xLinesOf c).length - 1) * ((zLinesOf c).length - 1) := by
  have := congrArg List.length (platesOf_map_id c)
  simpa using this

/-- The entries of the `plateIdByCoord` association list all carry ids of
generated plates (row level). -/
theorem genPlateCells_assoc_sub (nX : Nat) (o : String) (zi cnt : Nat)
    (xs : List Nat) :
    ∀ e ∈ (genPlateCells nX o zi cnt xs).2.1,
      e.2 ∈ (genPlateCells nX o zi cnt xs).1.map (fun p => p.id) := by
  induction xs generalizing cnt with
  | nil => simp [genPlateCells]
  | cons x xs ih =>
    intro e he
    simp only [genPlateCells, List.mem_cons, List.map_cons] at he ⊢
    rcases he with h | h
    · subst h; exact Or.inl rfl
    · exact Or.inr (ih (cnt + 1) e h)

theorem genPlateGrid_assoc_sub (nX : Nat) (o : String) (cnt : Nat)
    (zs : List Nat) :
    ∀ e ∈ (genPlateGrid nX o cnt zs).2.1,
      e.2 ∈ (genPlateGrid nX o cnt zs).1.map (fun p => p.id) := by
  induction zs generalizing cnt with
  | nil => simp [genPlateGrid]
  | cons z zs ih =>
    intro e he
    simp only [genPlateGrid, List.mem_append, List.map_append] at he ⊢
    rcases he with h | h
    · exact Or.inl (genPlateCells_assoc_sub nX o z cnt _ e h)
    · exact Or.inr (ih _ e h)

theorem assocLookup_mem {l : List ((Nat × Nat) × Nat)} {k : Nat × Nat} {v : Nat}
    (h : assocLookup l k = some v) : ∃ e ∈ l, e.2 = v := by
  induction l with
  | nil => simp [assocLookup] at h
  | cons e es ih =>
    rw [assocLookup] at h
    split at h
    · exact ⟨e, List.mem_cons_self _ _, by injection h⟩
    · obtain ⟨f, hf, hv⟩ := ih h
      exact ⟨f, List.mem_cons_of_mem _ hf, hv⟩

theorem plateAssoc_lookup_mem_ids {c : Config} {k : Nat × Nat} {v : Nat}
    (h : assocLookup (plateAssoc c) k = some v) :
    v ∈ (platesOf c).map (fun p => p.id) := by
  obtain ⟨e, he, hv⟩ := assocLookup_mem h
  exact hv ▸ genPlateGrid_assoc_sub _ _ _ _ e he

/-- Every corner id of a generated plate is the id of a surface node
(row level): the corner indices stay within the grid. -/
theorem genPlateCells_nodes_bound (nX nZ : Nat) (o : String) (zi cnt : Nat)
    (xs : List Nat) (hzi : zi + 1 < nZ) (hxs : ∀ x ∈ xs, x + 1 < nX) :
    ∀ pl ∈ (genPlateCells nX o zi cnt xs).1, ∀ nid ∈ pl.nodes,
      1 ≤ nid ∧ nid < 1 + nX * nZ := by
  induction xs generalizing cnt with
  | nil => simp [genPlateCells]
  | cons x xs ih =>
    intro pl hpl nid hnid
    simp only [genPlateCells, List.mem_cons] at hpl
    rcases hpl with h | h
    · subst h
      have hx : x + 1 < nX := hxs x (List.mem_cons_self _ _)
      have hbound : ∀ a b, a < nX → b < nZ → 1 ≤ nodeIdAt nX a b ∧
          nodeIdAt nX a b < 1 + nX * nZ := by
        intro a b ha hb
        unfold nodeIdAt
        constructor
        · omega
        · have : b * nX + a + 1 ≤ (nZ - 1) * nX + (nX - 1) + 1 := by
            have hb' : b ≤ nZ - 1 := by omega
            have ha' : a ≤ nX - 1 := by omega
            exact Nat.add_le_add (Nat.add_le_add
              (Nat.mul_le_mul_right _ hb') ha') le_rfl
          have hnz : 1 ≤ nZ := by omega
          have hnx : 1 ≤ nX := by omega
          calc b * nX + a + 1 ≤ (nZ - 1) * nX + (nX - 1) + 1 := this
            _ = nZ * nX - nX + (nX - 1) + 1 := by
                rw [Nat.sub_one_mul]
            _ < 1 + nX * nZ := by
                have h1 : nX ≤ nZ * nX := Nat.le_mul_of_pos_left _ (by omega)
                rw [Nat.mul_comm nX nZ]
                omega
      simp only [List.mem_cons] at hnid
      have hcases :
          nid = nodeIdAt nX x zi ∨ nid = nodeIdAt nX (x + 1) zi ∨
          nid = nodeIdAt nX (x + 1) (zi + 1) ∨ nid = nodeIdAt nX x (zi + 1) := by
        split at hnid <;> simp only [List.mem_cons, List.not_mem_nil, or_false] at hnid <;>
          tauto
      rcases hcases with h | h | h | h <;> subst h
      · exact hbound _ _ (by omega) (by omega)
      · exact hbound _ _ (by omega) (by omega)
      · exact hbound _ _ (by omega) (by omega)
      · exact hbound _ _ (by omega) (by omega)
    · exact ih (cnt + 1) (fun u hu => hxs u (List.mem_cons_of_mem _ hu)) pl h nid hnid

theorem genPlateGrid_nodes_bound (nX nZ : Nat) (o : String) (cnt : Nat)
    (zs : List Nat) (hzs : ∀ z ∈ zs, z + 1 < nZ) :
    ∀ pl ∈ (genPlateGrid nX o cnt zs).1, ∀ nid ∈ pl.nodes,
      1 ≤ nid ∧ nid < 1 + nX * nZ := by
  induction zs generalizing cnt with
  | nil => simp [genPlateGrid]
  | cons z zs ih =>
    intro pl hpl
    simp only [genPlateGrid, List.mem_append] at hpl
    rcases hpl with h | h
    · exact genPlateCells_nodes_bound nX nZ o z cnt _
        (hzs z (List.mem_cons_self _ _))
        (fun x hx => by
          have := List.mem_range.mp hx
          omega) pl h
    · exact ih _ (fun u hu => hzs u (List.mem_cons_of_mem _ hu)) pl h

theorem platesOf_nodes_surface (c : Config) :
    ∀ pl ∈ platesOf c, ∀ nid ∈ pl.nodes,
      ∃ n ∈ surfaceNodes c, n.id = nid ∧ n.type = "surface" := by
  intro pl hpl nid hnid
  have hbound := genPlateGrid_nodes_bound (xLinesOf c).length (zLinesOf c).length
    c.zOrientation 1 (List.range ((zLinesOf c).length - 1))
    (fun z hz => by have := List.mem_range.mp hz; omega) pl hpl nid hnid
  have hmem : nid ∈ (surfaceNodes c).map (fun n => n.id) := by
    rw [surfaceNodes_map_id, List.mem_range'_1]
    exact ⟨hbound.1, by have := hbound.2; omega⟩
  obtain ⟨n, hn, hid⟩ := List.mem_map.mp hmem
  exact ⟨n, hn, hid, surfaceNodes_type c n hn⟩

/-- Same grid, `"up"` versus `"down"`: the rows produce reversed node
tuples with identical ids and identical `plateIdByCoord` data. -/
theorem genPlateCells_up_down (nX : Nat) (zi cnt : Nat) (xs : List Nat) :
    genPlateCells nX "up" zi cnt xs =
      ((genPlateCells nX "down" zi cnt xs).1.map
        (fun pl => ⟨pl.id, pl.nodes.reverse⟩),
       (genPlateCells nX "down" zi cnt xs).2) := by
  induction xs generalizing cnt with
  | nil => simp [genPlateCells]
  | cons x xs ih => simp [genPlateCells, ih]

theorem genPlateGrid_up_down (nX : Nat) (cnt : Nat) (zs : List Nat) :
    genPlateGrid nX "up" cnt zs =
      ((genPlateGrid nX "down" cnt zs).1.map
        (fun pl => ⟨pl.id, pl.nodes.reverse⟩),
       (genPlateGrid nX "down" cnt zs).2) := by
  induction zs generalizing cnt with
  | nil => simp [genPlateGrid]
  | cons z zs ih => simp [genPlateGrid, ih, genPlateCells_up_down]

/-! ### Classifier lemmas -/

theorem clipRange_mono {s s' e e' : ℤ} (n : Nat) (hs : s' ≤ s) (he : e ≤ e') :
    ∀ i ∈ clipRange s e n, i ∈ clipRange s' e' n := by
  intro i hi
  simp only [clipRange, List.mem_filter, Bool.and_eq_true, decide_eq_true_eq] at hi ⊢
  exact ⟨hi.1, le_trans hs hi.2.1, lt_of_lt_of_le hi.2.2 he⟩

theorem pedCells_mono (c : Config) {bx bx' bz bz' : ℤ × ℤ}
    (hx1 : bx'.1 ≤ bx.1) (hx2 : bx.2 ≤ bx'.2)
    (hz1 : bz'.1 ≤ bz.1) (hz2 : bz.2 ≤ bz'.2) :
    ∀ v ∈ pedCells c bx bz, v ∈ pedCells c bx' bz' := by
  intro v hv
  simp only [pedCells, List.mem_flatMap, List.mem_filterMap] at hv ⊢
  obtain ⟨xi, hxi, zi, hzi, hlook⟩ := hv
  exact ⟨xi, clipRange_mono _ hx1 hx2 xi hxi, zi,
    clipRange_mono _ hz1 hz2 zi hzi, hlook⟩

theorem pedCells_sub_plateIds (c : Config) (bx bz : ℤ × ℤ) :
    ∀ v ∈ pedCells c bx bz, v ∈ (platesOf c).map (fun p => p.id) := by
  intro v hv
  simp only [pedCells, List.mem_flatMap, List.mem_filterMap] at hv
  obtain ⟨xi, -, zi, -, hlook⟩ := hv
  exact plateAssoc_lookup_mem_ids hlook

theorem pedMoment_subset_pedOneWay (c : Config)
    (ht : 0 < c.plateThickness) (hm : 0 < c.mesh) (p : Pedestal) :
    pedMoment c p ⊆ pedOneWay c p := by
  have hd : 0 ≤ dOneWay c := by
    rw [dOneWay, round_eq]
    rw [Int.floor_nonneg]
    have : 0 ≤ c.plateThickness / c.mesh := le_of_lt (div_pos ht hm)
    linarith
  intro v hv
  rw [pedMoment, List.mem_toFinset] at hv
  rw [pedOneWay, List.mem_toFinset]
  exact pedCells_mono c (by simp [expandB]; omega) (by simp [expandB]; omega)
    (by simp [expandB]; omega) (by simp [expandB]; omega) v hv

theorem pedTwoWay_subset_pedOneWay (c : Config)
    (ht : 0 < c.plateThickness) (hm : 0 < c.mesh) (p : Pedestal) :
    pedTwoWay c p ⊆ pedOneWay c p := by
  have hdd : dTwoWay c ≤ dOneWay c := by
    rw [dTwoWay, dOneWay, round_eq, round_eq]
    apply Int.floor_mono
    have hdiv : c.plateThickness / (2 * c.mesh) ≤ c.plateThickness / c.mesh := by
      gcongr
      linarith
    linarith
  intro v hv
  rw [pedTwoWay, List.mem_toFinset] at hv
  rw [pedOneWay, List.mem_toFinset]
  exact pedCells_mono c (by simp [expandB]; omega) (by simp [expandB]; omega)
    (by simp [expandB]; omega) (by simp [expandB]; omega) v hv

theorem foldl_union_mono {α : Type} [DecidableEq α] (f g : Pedestal → Finset α)
    (l : List Pedestal) (h : ∀ p ∈ l, f p ⊆ g p) :
    ∀ s t : Finset α, s ⊆ t →
      l.foldl (fun s p => s ∪ f p) s ⊆ l.foldl (fun s p => s ∪ g p) t := by
  induction l with
  | nil => intro s t hst; simpa using hst
  | cons p ps ih =>
    intro s t hst
    simp only [List.foldl_cons]
    exact ih (fun q hq => h q (List.mem_cons_of_mem _ hq)) _ _
      (Finset.union_subset_union hst (h p (List.mem_cons_self _ _)))

theorem foldl_union_sub {α : Type} [DecidableEq α] (f : Pedestal → Finset α)
    (l : List Pedestal) (A : Finset α) (h : ∀ p ∈ l, f p ⊆ A) :
    ∀ s : Finset α, s ⊆ A → l.foldl (fun s p => s ∪ f p) s ⊆ A := by
  induction l with
  | nil => intro s hs; simpa using hs
  | cons p ps ih =>
    intro s hs
    simp only [List.foldl_cons]
    exact ih (fun q hq => h q (List.mem_cons_of_mem _ hq)) _
      (Finset.union_subset hs (h p (List.mem_cons_self _ _)))

theorem momentSet_subset_oneWaySet (c : Config)
    (ht : 0 < c.plateThickness) (hm : 0 < c.mesh) :
    momentSet c ⊆ oneWaySet c :=
  foldl_union_mono _ _ _
    (fun p _ => pedMoment_subset_pedOneWay c ht hm p) ∅ ∅ (by rfl)

theorem twoWaySet_subset_oneWaySet (c : Config)
    (ht : 0 < c.plateThickness) (hm : 0 < c.mesh) :
    twoWaySet c ⊆ oneWaySet c :=
  foldl_union_mono _ _ _
    (fun p _ => pedTwoWay_subset_pedOneWay c ht hm p) ∅ ∅ (by rfl)

theorem groups_subset_plateIds (c : Config) :
    ∀ v ∈ momentSet c ∪ oneWaySet c ∪ twoWaySet c,
      v ∈ (platesOf c).map (fun p => p.id) := by
  have hA : ∀ (bx bz : ℤ × ℤ),
      (pedCells c bx bz).toFinset ⊆
        ((platesOf c).map (fun p => p.id)).toFinset := by
    intro bx bz v hv
    rw [List.mem_toFinset] at hv ⊢
    exact pedCells_sub_plateIds c bx bz v hv
  intro v hv
  rw [← List.mem_toFinset]
  revert v
  have hm : momentSet c ⊆ ((platesOf c).map (fun p => p.id)).toFinset :=
    foldl_union_sub _ _ _ (fun p _ => hA _ _) ∅ (Finset.empty_subset _)
  have ho : oneWaySet c ⊆ ((platesOf c).map (fun p => p.id)).toFinset :=
    foldl_union_sub _ _ _ (fun p _ => hA _ _) ∅ (Finset.empty_subset _)
  have hw : twoWaySet c ⊆ ((platesOf c).map (fun p => p.id)).toFinset :=
    foldl_union_sub _ _ _ (fun p _ => hA _ _) ∅ (Finset.empty_subset _)
  intro v hv
  rcases Finset.mem_union.mp hv with h | h
  · rcases Finset.mem_union.mp h with h1 | h1
    · exact hm h1
    · exact ho h1
  · exact hw h

/-! ### Node/member composition lemmas -/

theorem nodesOf_map_id (c : Config) :
    (nodesOf c).map (fun n => n.id) = List.range' 1 (nodesOf c).length := by
  rw [nodesOf, List.map_append, List.length_append, surfaceNodes_map_id,
    surfaceNodes_length, pedResult]
  split
  · rw [genPedestals_map_id, genPedestals_length, surfResult_snd]
    have happ := List.range'_append 1
      ((xLinesOf c).length * (zLinesOf c).length)
      (c.points.countP (fun p => (surfaceLookup (surfaceNodes c) p.x p.z).isSome)) 1
    simp only [one_mul] at happ
    rw [happ, Nat.add_comm]
  · simp

theorem membersOf_src (c : Config) :
    ∀ m ∈ membersOf c, m.pointData ∈ c.points ∧
      surfaceLookup (surfaceNodes c) m.pointData.x m.pointData.z =
        some m.startNode ∧
      (∃ n ∈ surfaceNodes c, n.id = m.startNode ∧ n.type = "surface") ∧
      (∃ n ∈ nodesOf c, n.id = m.endNode ∧ n.type = "pedestal") := by
  intro m hm
  rw [membersOf, pedResult] at hm
  split at hm
  · obtain ⟨hp, hsl, n, hn, hid⟩ :=
      genPedestals_member_src (surfaceNodes c) c.pedestalHeight
        (surfResult c).2 1 c.points m hm
    obtain ⟨ns, hns, hnid, hkey⟩ := surfaceLookup_some hsl
    have hntype := (genPedestals_node_src (surfaceNodes c) c.pedestalHeight
      (surfResult c).2 1 c.points n hn).1
    refine ⟨hp, hsl, ⟨ns, hns, hnid, surfaceNodes_type c ns hns⟩,
      ⟨n, ?_, hid, hntype⟩⟩
    rw [nodesOf, List.mem_append, pedResult]
    split
    · exact Or.inr hn
    · rename_i hc; exact absurd (by assumption) hc
  · simp at hm

theorem pedNodes_src (c : Config) :
    ∀ n ∈ (pedResult c).1, n.type = "pedestal" ∧
      ∃ q ∈ c.points, n.x = q.x ∧ n.z = q.z ∧
        (surfaceLookup (surfaceNodes c) q.x q.z).isSome := by
  intro n hn
  rw [pedResult] at hn
  split at hn
  · exact genPedestals_node_src _ _ _ _ _ n hn
  · simp at hn

/-! ### Claim theorems -/

/-- **C4 (amended)**: the number of generated nodes is
`|xLines|·|zLines|` plus, when `pedestalHeight > 1e-9` (the code's guard;
the claim's `pedestalHeight > 0` fails on heights in `(0, 1e-9]`), the
count of pedestals whose 3-decimal-rounded center matches the rounded
coordinates of a surface node, else plus nothing; and the number of
generated plates is `(|xLines|-1)·(|zLines|-1)`. -/
theorem claimC4_amended (c : Config) :
    (nodesOf c).length =
      (xLinesOf c).length * (zLinesOf c).length +
        (if tol9 < c.pedestalHeight then
          c.points.countP
            (fun p => (surfaceLookup (surfaceNodes c) p.x p.z).isSome)
        else 0) ∧
    (platesOf c).length =
      ((xLinesOf c).length - 1) * ((zLinesOf c).length - 1) := by
  refine ⟨?_, platesOf_length c⟩
  rw [nodesOf, List.length_append, surfaceNodes_length, pedResult]
  split
  · rw [genPedestals_length]
  · rfl

/-- **C5 (confirmed)**: with positive plate thickness and mesh step the
moment plate set is contained in the one-way-shear plate set, both per
pedestal and for the union across pedestals, because the one-way range
is the moment range expanded outward by `round(t/m) ≥ 0` cells before
clipping. -/
theorem claimC5_moment_subset_oneWay (c : Config)
    (ht : 0 < c.plateThickness) (hm : 0 < c.mesh) :
    (∀ p ∈ c.points, pedMoment c p ⊆ pedOneWay c p) ∧
      momentSet c ⊆ oneWaySet c :=
  ⟨fun p _ => pedMoment_subset_pedOneWay c ht hm p,
    momentSet_subset_oneWaySet c ht hm⟩

/-- **C9 (confirmed)**: with positive plate thickness and mesh step the
two-way-shear plate set is contained in the one-way-shear plate set,
per pedestal and for the union across pedestals, because
`round(t/(2m)) ≤ round(t/m)`. -/
theorem claimC9_twoWay_subset_oneWay (c : Config)
    (ht : 0 < c.plateThickness) (hm : 0 < c.mesh) :
    (∀ p ∈ c.points, pedTwoWay c p ⊆ pedOneWay c p) ∧
      twoWaySet c ⊆ oneWaySet c :=
  ⟨fun p _ => pedTwoWay_subset_pedOneWay c ht hm p,
    twoWaySet_subset_oneWaySet c ht hm⟩

/-- **C6 (confirmed)**: every plate's four node ids reference existing
surface nodes; every member's node ids reference one surface and one
pedestal node; and every classifier group's plate ids are a subset of
the generated plate ids (the classifier ranges being clipped to the
plate grid, only existing plates are ever collected). -/
theorem claimC6_referential_integrity (c : Config) :
    (∀ pl ∈ platesOf c, ∀ nid ∈ pl.nodes,
      ∃ n ∈ surfaceNodes c, n.id = nid ∧ n.type = "surface") ∧
    (∀ m ∈ membersOf c,
      (∃ n ∈ surfaceNodes c, n.id = m.startNode ∧ n.type = "surface") ∧
      (∃ n ∈ nodesOf c, n.id = m.endNode ∧ n.type = "pedestal")) ∧
    (∀ v ∈ momentSet c ∪ oneWaySet c ∪ twoWaySet c,
      v ∈ (platesOf c).map (fun p => p.id)) :=
  ⟨platesOf_nodes_surface c,
    fun m hm => ⟨(membersOf_src c m hm).2.2.1, (membersOf_src c m hm).2.2.2⟩,
    groups_subset_plateIds c⟩

/-- **C7 (confirmed)**: with the same grid and pedestal inputs,
orientation `"up"` produces, plate id by plate id, the exact reverse of
the node 4-tuple produced by orientation `"down"`
(`[tl,tr,br,bl]` versus `[bl,br,tr,tl]`). -/
theorem claimC7_orientation_reverses (c : Config) :
    platesOf {c with zOrientation := "up"} =
      (platesOf {c with zOrientation := "down"}).map
        (fun pl => ⟨pl.id, pl.nodes.reverse⟩) := by
  have h := genPlateGrid_up_down (xLinesOf c).length 1
    (List.range ((zLinesOf c).length - 1))
  simpa [platesOf, platesResult] using congrArg Prod.fst h

/-- **C2 (amended)**: a pedestal whose 3-decimal-rounded center does not
equal the rounded coordinates of any surface node yields no member and
no pedestal node (a silent no-op; all functions are total, so no error
is possible).  The classifier part of the original claim is dropped: the
classifier locates the nearest grid index, so its sets for such a
pedestal need not be empty. -/
theorem claimC2_amended (c : Config) (p : Pedestal) (hp : p ∈ c.points)
    (H : ∀ n ∈ surfaceNodes c, coordKey n.x n.z ≠ coordKey p.x p.z) :
    (∀ m ∈ membersOf c, m.pointData ≠ p) ∧
    (∀ n ∈ nodesOf c, n.type = "pedestal" →
      coordKey n.x n.z ≠ coordKey p.x p.z) := by
  have hnone : surfaceLookup (surfaceNodes c) p.x p.z = none :=
    surfaceLookup_eq_none H
  constructor
  · intro m hm heq
    have hsl := (membersOf_src c m hm).2.1
    rw [heq] at hsl
    rw [hnone] at hsl
    exact Option.noConfusion hsl
  · intro n hn htype hkey
    rw [nodesOf, List.mem_append] at hn
    rcases hn with h | h
    · have := surfaceNodes_type c n h
      rw [this] at htype
      exact absurd htype (by decide)
    · obtain ⟨-, q, -, hqx, hqz, hsome⟩ := pedNodes_src c n h
      obtain ⟨sid, hsid⟩ := Option.isSome_iff_exists.mp hsome
      obtain ⟨ns, hns, -, hkeyq⟩ := surfaceLookup_some hsid
      apply H ns hns
      rw [hkeyq]
      rw [coordKey, ← hqx, ← hqz]
      exact hkey

/-- **C3 (amended)**: each grid sequence contains `0`, the `1e-6`-rounding
of the plan extent, and the `1e-6`-rounding of each clamped pedestal
coordinate (the exact unrounded values need not appear), and is strictly
increasing; only the seeded cut values (the `uniqSorted` outputs) are
guaranteed to be at least `1e-6` apart — interior mesh points may be
closer. -/
theorem claimC3_amended (c : Config)
    (hL : 0 < c.length) (hW : 0 < c.width) (hm : 0 < c.mesh) :
    (0 ∈ xLinesOf c ∧ roundEps c.length ∈ xLinesOf c ∧
      ∀ p ∈ c.points, roundEps (clamp p.x 0 c.length) ∈ xLinesOf c) ∧
    (0 ∈ zLinesOf c ∧ roundEps c.width ∈ zLinesOf c ∧
      ∀ p ∈ c.points, roundEps (clamp p.z 0 c.width) ∈ zLinesOf c) ∧
    (xLinesOf c).Sorted (· < ·) ∧ (zLinesOf c).Sorted (· < ·) ∧
    (∀ a ∈ uniqSorted ([0, c.length] ++
        c.points.map (fun p => clamp p.x 0 c.length)),
      ∀ b ∈ uniqSorted ([0, c.length] ++
        c.points.map (fun p => clamp p.x 0 c.length)),
      a ≠ b → epsQ ≤ |a - b|) ∧
    (∀ a ∈ uniqSorted ([0, c.width] ++
        c.points.map (fun p => clamp p.z 0 c.width)),
      ∀ b ∈ uniqSorted ([0, c.width] ++
        c.points.map (fun p => clamp p.z 0 c.width)),
      a ≠ b → epsQ ≤ |a - b|) :=
  ⟨⟨zero_mem_xLines c, extent_mem_xLines c, fun _ hp => clampx_mem_xLines c hp⟩,
   ⟨zero_mem_zLines c, extent_mem_zLines c, fun _ hp => clampz_mem_zLines c hp⟩,
   sorted_lt_addDivisions _ _, sorted_lt_addDivisions _ _,
   fun _ ha _ hb hab => uniqSorted_separation ha hb hab,
   fun _ ha _ hb hab => uniqSorted_separation ha hb hab⟩

/-- **C10 (confirmed)**: node ids form exactly the contiguous range
`1..|nodes|` and plate ids exactly `1..|plates|` (pedestal skips leave no
gaps because the counters only advance on emission), and when plates
exist the export contains the `ELEMENT PROPERTY` line `1 TO n` with
`n = |plates|`, which therefore names exactly the set of plate ids. -/
theorem claimC10_contiguous_ids (c : Config) (d : String) :
    (nodesOf c).map (fun n => n.id) = List.range' 1 (nodesOf c).length ∧
    (platesOf c).map (fun p => p.id) = List.range' 1 (platesOf c).length ∧
    ((platesOf c).length > 0 →
      ("1 TO " ++ toString (platesOf c).length ++ " THICKNESS "
        ++ ratStr (round3 c.plateThickness) ++ ";") ∈ exportLines d c) := by
  refine ⟨nodesOf_map_id c, ?_, ?_⟩
  · rw [platesOf_map_id, platesOf_length]
  · intro hpos
    rw [exportLines]
    apply List.mem_append_left
    apply List.mem_append_left
    apply List.mem_append_right
    rw [if_pos hpos]
    simp

/-- **C1 (amended)**: joint/element block lines are bounded by 75
characters including the terminating `';'` (not 74: the `';'` is appended
after the 74-character check), provided no single token exceeds 74
characters; group block lines are bounded by 62 characters including the
`' -'` continuation (not 60: the marker is appended after the
60-character check), provided no id numeral exceeds 60 characters. -/
theorem claimC1_amended (c : Config)
    (hjoint : ∀ t ∈ (nodesOf c).map jointToken, t.length ≤ 74)
    (hplate : ∀ t ∈ (platesOf c).map plateToken, t.length ≤ 74)
    (hids : ∀ i ∈ groupedPlates c ++ shearPlates c ++ twoWayShearList c,
      (toString i).length ≤ 60) :
    (∀ l ∈ packTokens 74 ((nodesOf c).map jointToken), l.length ≤ 75) ∧
    (∀ l ∈ packTokens 74 ((platesOf c).map plateToken), l.length ≤ 75) ∧
    (∀ l ∈ formatGroupLines "MOMENT" (groupedPlates c), l.length ≤ 62) ∧
    (∀ l ∈ formatGroupLines "1_WAY_SHEAR" (shearPlates c), l.length ≤ 62) ∧
    (∀ l ∈ formatGroupLines "2_WAY_SHEAR" (twoWayShearList c), l.length ≤ 62) := by
  refine ⟨packTokens_length_le 74 _ hjoint, packTokens_length_le 74 _ hplate,
    ?_, ?_, ?_⟩
  · exact formatGroupLines_length_le _ _ (by decide)
      (fun i hi => hids i (List.mem_append_left _ (List.mem_append_left _ hi)))
  · exact formatGroupLines_length_le _ _ (by decide)
      (fun i hi => hids i (List.mem_append_left _ (List.mem_append_right _ hi)))
  · exact formatGroupLines_length_le _ _ (by decide)
      (fun i hi => hids i (List.mem_append_right _ hi))

/-- A line that is none of the fixed literals, does not start with `'E'`
(the date line does) and does not end with `';'` (every packed line and
property line does) cannot occur in an export without members and with
empty groups. -/
theorem not_mem_exportLines (d : String) (c : Config) (t : String)
    (hmem : membersOf c = []) (hg : groupedPlates c = [])
    (hs : shearPlates c = []) (hw : twoWayShearList c = [])
    (h7 : t ∉ (["STAAD SPACE", "START JOB INFORMATION", "END JOB INFORMATION",
      "INPUT WIDTH 79", "UNIT METER KN", "JOINT COORDINATES",
      "ELEMENT INCIDENCES SHELL", "ELEMENT PROPERTY", "FINISH"] : List String))
    (hdate : t.data.head? ≠ some 'E')
    (hsemi : t.data.getLast? ≠ some ';') :
    t ∉ exportLines d c := by
  intro hT
  rw [exportLines] at hT
  rcases List.mem_append.mp hT with hT | hT
  swap
  · apply h7
    simp only [List.mem_singleton] at hT
    simp [hT]
  rcases List.mem_append.mp hT with hT | hT
  swap
  · rw [hmem] at hT
    simp at hT
  rcases List.mem_append.mp hT with hT | hT
  swap
  · split at hT
    · simp only [List.mem_cons, List.not_mem_nil, or_false] at hT
      rcases hT with hT | hT
      · apply h7; simp [hT]
      · apply hsemi
        rw [hT, String.data_append]
        exact List.getLast?_concat _
    · simp at hT
  rcases List.mem_append.mp hT with hT | hT
  swap
  · rw [hg, hs, hw] at hT
    simp at hT
  rcases List.mem_append.mp hT with hT | hT
  swap
  · exact hsemi (packTokens_ends_semi 74 _ t hT)
  rcases List.mem_append.mp hT with hT | hT
  swap
  · apply h7
    simp only [List.mem_singleton] at hT
    simp [hT]
  rcases List.mem_append.mp hT with hT | hT
  swap
  · exact hsemi (packTokens_ends_semi 74 _ t hT)
  simp only [List.mem_cons, List.not_mem_nil, or_false] at hT
  rcases hT with hT | hT | hT | hT | hT | hT | hT
  · apply h7; simp [hT]
  · apply h7; simp [hT]
  · apply hdate
    rw [hT, String.data_append]
    rfl
  · apply h7; simp [hT]
  · apply h7; simp [hT]
  · apply h7; simp [hT]
  · apply h7; simp [hT]

/-! ### Concrete inputs for scenarios, counterexamples and witnesses -/

/-- The §8 scenario input: plan 6×4, mesh 0.2, no pedestals, height 0. -/
def c8s : Config := ⟨6, 4, 1/5, 0, 3/10, "down", []⟩

/-- A 10.5×9 plan with mesh 0.5 and one 21×2 pedestal at (5,8): its
export has a 75-character joint line and a 61-character group line. -/
def c1cx : Config := ⟨21/2, 9, 1/2, 0, 1, "down", [⟨1, 5, 8, 21, 2⟩]⟩

/-- A 1×1 plan whose single pedestal sits at (7,7), far off the grid. -/
def c2cx : Config := ⟨1, 1, 1, 1, 2, "down", [⟨1, 7, 7, 2, 2⟩]⟩

/-- The off-grid pedestal of `c2cx`. -/
def c2p : Pedestal := ⟨1, 7, 7, 2, 2⟩

/-- A plan whose pedestal coordinate `4e-7` is rounded away by the
`1e-6` cut deduplication, and whose mesh `0.0999999` creates grid values
only `1e-7` apart. -/
def c3cx : Config :=
  ⟨1, 1, 999999/10000000, 0, 1, "down",
   [⟨1, 1/2500000, 0, 1, 1⟩, ⟨2, 1/10, 0, 1, 1⟩]⟩

/-- A grid-aligned pedestal with height `1e-10`: positive, yet below the
code's `1e-9` guard. -/
def c4cx : Config := ⟨1, 1, 1, 1/10000000000, 1, "down", [⟨1, 0, 0, 1, 1⟩]⟩

/-- A small input with a live pedestal, used to instantiate the general
theorems: 2×2 plan, mesh 1, pedestal at (1,1) with height 1. -/
def cw : Config := ⟨2, 2, 1, 1, 1, "down", [⟨1, 1, 1, 2, 2⟩]⟩

set_option maxHeartbeats 2000000 in
set_option maxRecDepth 100000 in
/-- **C8 (confirmed)**: plan 6×4, mesh 0.2, no pedestals, height 0 give
31 x-lines 0..6 step 0.2, 21 z-lines 0..4 step 0.2, 651 nodes, 600
plates, no members, and an export without `MEMBER` or `GROUP`
sections, for any injected date string. -/
theorem claimC8_scenario (d : String) :
    xLinesOf c8s = (List.range 31).map (fun i => (i : ℚ) / 5) ∧
    zLinesOf c8s = (List.range 21).map (fun i => (i : ℚ) / 5) ∧
    (nodesOf c8s).length = 651 ∧ (platesOf c8s).length = 600 ∧
    (membersOf c8s).length = 0 ∧
    "MEMBER INCIDENCES" ∉ exportLines d c8s ∧
    "MEMBER PROPERTY" ∉ exportLines d c8s ∧
    "START GROUP DEFINITION" ∉ exportLines d c8s := by
  have hmem : membersOf c8s = [] := by decide
  refine ⟨by decide, by decide, by decide, by decide, by decide, ?_, ?_, ?_⟩
  · exact not_mem_exportLines d c8s _ hmem rfl rfl rfl (by decide) (by decide)
      (by decide)
  · exact not_mem_exportLines d c8s _ hmem rfl rfl rfl (by decide) (by decide)
      (by decide)
  · exact not_mem_exportLines d c8s _ hmem rfl rfl rfl (by decide) (by decide)
      (by decide)

/-! ### Counterexamples -/

set_option maxHeartbeats 4000000 in
set_option maxRecDepth 100000 in
/-- **C1 counterexample**: at `c1cx` the export's joint block has a line
longer than 74 characters and its `_MOMENT` group block has a line
longer than 60 characters (both bounds of the original claim fail). -/
theorem claimC1_counterexample :
    (∃ l ∈ packTokens 74 ((nodesOf c1cx).map jointToken), 74 < l.length) ∧
    (∃ l ∈ formatGroupLines "MOMENT" (groupedPlates c1cx), 60 < l.length) := by
  decide

/-- **C2 counterexample**: the pedestal of `c2cx` matches no surface
node after rounding, yet its per-pedestal moment set is non-empty (the
classifier snaps to the nearest grid index), contradicting the claim
that the classifier sets of an unaligned pedestal are empty. -/
theorem claimC2_counterexample :
    (∀ n ∈ surfaceNodes c2cx, coordKey n.x n.z ≠ coordKey c2p.x c2p.z) ∧
    c2p ∈ c2cx.points ∧ pedMoment c2cx c2p ≠ ∅ := by decide

/-- **C3 counterexample**: at `c3cx` the clamped pedestal coordinate
`4e-7` does not occur in `xLines` (only its `1e-6` rounding does), and
two `xLines` values differ by less than `1e-6`. -/
theorem claimC3_counterexample :
    clamp (1/2500000 : ℚ) 0 1 ∉ xLinesOf c3cx ∧
    ∃ a ∈ xLinesOf c3cx, ∃ b ∈ xLinesOf c3cx, a ≠ b ∧ |a - b| < epsQ := by
  decide

/-- **C4 counterexample**: at `c4cx` the pedestal height `1e-10` is
positive and one pedestal is grid-aligned, yet no pedestal node is
generated (the code's guard is `> 1e-9`), so the claim's
`pedestalHeight > 0` count formula fails. -/
theorem claimC4_counterexample :
    (nodesOf c4cx).length ≠
      (xLinesOf c4cx).length * (zLinesOf c4cx).length +
        (if 0 < c4cx.pedestalHeight then
          c4cx.points.countP
            (fun p => (surfaceLookup (surfaceNodes c4cx) p.x p.z).isSome)
        else 0) := by decide

/-! ### Witnesses -/

/-- Witness for C1: at `cw` all token hypotheses hold and the bounds
follow. -/
theorem claimC1_witness :
    (∀ t ∈ (nodesOf cw).map jointToken, t.length ≤ 74) ∧
    (∀ t ∈ (platesOf cw).map plateToken, t.length ≤ 74) ∧
    (∀ i ∈ groupedPlates cw ++ shearPlates cw ++ twoWayShearList cw,
      (toString i).length ≤ 60) ∧
    (∀ l ∈ packTokens 74 ((nodesOf cw).map jointToken), l.length ≤ 75) ∧
    (∀ l ∈ formatGroupLines "MOMENT" (groupedPlates cw), l.length ≤ 62) := by
  have h := claimC1_amended cw (by decide) (by decide) (by decide)
  exact ⟨by decide, by decide, by decide, h.1, h.2.2.1⟩

/-- Witness for C2: the unaligned pedestal of `c2cx` yields no member
and no pedestal node. -/
theorem claimC2_witness :
    c2p ∈ c2cx.points ∧
    (∀ n ∈ surfaceNodes c2cx, coordKey n.x n.z ≠ coordKey c2p.x c2p.z) ∧
    ((∀ m ∈ membersOf c2cx, m.pointData ≠ c2p) ∧
     (∀ n ∈ nodesOf c2cx, n.type = "pedestal" →
        coordKey n.x n.z ≠ coordKey c2p.x c2p.z)) :=
  ⟨by decide, by decide, claimC2_amended c2cx c2p (by decide) (by decide)⟩

/-- Witness for C3 at `cw`. -/
theorem claimC3_witness :
    ((0:ℚ) < cw.length ∧ (0:ℚ) < cw.width ∧ (0:ℚ) < cw.mesh) ∧
    0 ∈ xLinesOf cw ∧ (xLinesOf cw).Sorted (· < ·) := by
  have h := claimC3_amended cw (by decide) (by decide) (by decide)
  exact ⟨⟨by decide, by decide, by decide⟩, h.1.1, h.2.2.1⟩

/-- Witness for C5 at `cw`. -/
theorem claimC5_witness :
    ((0:ℚ) < cw.plateThickness ∧ (0:ℚ) < cw.mesh) ∧
    ((∀ p ∈ cw.points, pedMoment cw p ⊆ pedOneWay cw p) ∧
      momentSet cw ⊆ oneWaySet cw) :=
  ⟨⟨by decide, by decide⟩, claimC5_moment_subset_oneWay cw (by decide) (by decide)⟩

/-- Witness for C6 at `cw`. -/
theorem claimC6_witness :
    (∀ pl ∈ platesOf cw, ∀ nid ∈ pl.nodes,
      ∃ n ∈ surfaceNodes cw, n.id = nid ∧ n.type = "surface") ∧
    (∀ v ∈ momentSet cw ∪ oneWaySet cw ∪ twoWaySet cw,
      v ∈ (platesOf cw).map (fun p => p.id)) :=
  ⟨(claimC6_referential_integrity cw).1, (claimC6_referential_integrity cw).2.2⟩

/-- Witness for C8 at the date `"01-Jan-25"`. -/
theorem claimC8_witness :
    (nodesOf c8s).length = 651 ∧
    "MEMBER INCIDENCES" ∉ exportLines "01-Jan-25" c8s :=
  ⟨(claimC8_scenario "01-Jan-25").2.2.1,
   (claimC8_scenario "01-Jan-25").2.2.2.2.2.1⟩

/-- Witness for C9 at `cw`. -/
theorem claimC9_witness :
    ((0:ℚ) < cw.plateThickness ∧ (0:ℚ) < cw.mesh) ∧
    ((∀ p ∈ cw.points, pedTwoWay cw p ⊆ pedOneWay cw p) ∧
      twoWaySet cw ⊆ oneWaySet cw) :=
  ⟨⟨by decide, by decide⟩, claimC9_twoWay_subset_oneWay cw (by decide) (by decide)⟩

/-- Witness for C10 at `cw` with a concrete date. -/
theorem claimC10_witness :
    (platesOf cw).length > 0 ∧
    ("1 TO " ++ toString (platesOf cw).length ++ " THICKNESS "
      ++ ratStr (round3 cw.plateThickness) ++ ";") ∈ exportLines "01-Jan-25" cw :=
  ⟨by decide, (claimC10_contiguous_ids cw "01-Jan-25").2.2 (by decide)⟩

end PlateGeo
